import Mathlib

/-!
Verification of the geographic entity-resolution pipeline of `src/main.py`
(a Streamlit dashboard over a crime-incident dataset).

The embedding models strings as lists of Unicode codepoints (`Str := List Nat`)
so that Python's `str.upper`, `str.strip`, `unicodedata.normalize('NFD', ...)`,
`.encode('ascii','ignore')` and `re.sub(r'[^A-Z0-9]','', ...)` can be modelled
character by character.  The character tables cover ASCII, the Spanish accented
letters occurring in Buenos Aires place names (á é í ó ú ü ñ and their
capitals), and U+00DF (ß), whose uppercase form is the two-character string
"SS" per the Unicode SpecialCasing table used by Python's `str.upper`.
Characters outside the tables are left fixed by case mapping and NFD, which is
accurate for every other character class the proofs touch (digits, punctuation,
whitespace, combining marks).
-/

namespace Delitos

/-- A Python string, as its list of Unicode codepoints. -/
abbrev Str := List Nat

/-- ASCII whitespace stripped by `str.strip` (space, tab, LF, CR); the model
restricts Python's Unicode whitespace set to its ASCII part. -/
def isWs (c : Nat) : Bool := c == 32 || c == 9 || c == 10 || c == 13

/-- Python `str.upper`, per codepoint.  Lowercase ASCII and the accented
Spanish lowercase letters map to their uppercase forms; `ß` (U+00DF) maps to
the two-character string "SS" (Unicode SpecialCasing, as implemented by
CPython); everything else in the modelled domain is fixed. -/
def pyUpperChar (c : Nat) : List Nat :=
  if 97 ≤ c ∧ c ≤ 122 then [c - 32]
  else if c = 225 then [193]      -- á → Á
  else if c = 233 then [201]      -- é → É
  else if c = 237 then [205]      -- í → Í
  else if c = 243 then [211]      -- ó → Ó
  else if c = 250 then [218]      -- ú → Ú
  else if c = 252 then [220]      -- ü → Ü
  else if c = 241 then [209]      -- ñ → Ñ
  else if c = 223 then [83, 83]   -- ß → SS
  else [c]

/-- Python `str.lower`, per codepoint (used on GeoJSON property keys). -/
def pyLowerChar (c : Nat) : List Nat :=
  if 65 ≤ c ∧ c ≤ 90 then [c + 32]
  else if c = 193 then [225]
  else if c = 201 then [233]
  else if c = 205 then [237]
  else if c = 211 then [243]
  else if c = 218 then [250]
  else if c = 220 then [252]
  else if c = 209 then [241]
  else [c]

/-- Unicode NFD decomposition, per codepoint: an accented letter decomposes
into its base letter followed by a combining mark (U+0301 acute, U+0303 tilde,
U+0308 diaeresis).  `ß` has no canonical decomposition.  Characters outside
the table are fixed. -/
def nfdChar (c : Nat) : List Nat :=
  if c = 225 then [97, 769]       -- á → a + ́
  else if c = 233 then [101, 769]
  else if c = 237 then [105, 769]
  else if c = 243 then [111, 769]
  else if c = 250 then [117, 769]
  else if c = 252 then [117, 776] -- ü → u + ̈
  else if c = 241 then [110, 771] -- ñ → n + ̃
  else if c = 193 then [65, 769]
  else if c = 201 then [69, 769]
  else if c = 205 then [73, 769]
  else if c = 211 then [79, 769]
  else if c = 218 then [85, 769]
  else if c = 220 then [85, 776]
  else if c = 209 then [78, 771]
  else [c]

/-- Python `str.upper` on a whole string. -/
def pyUpper (s : Str) : Str := s.flatMap pyUpperChar

/-- Python `str.lower` on a whole string. -/
def pyLower (s : Str) : Str := s.flatMap pyLowerChar

/-- Python `str.strip`: drop whitespace from both ends. -/
def pyStrip (s : Str) : Str :=
  ((s.dropWhile isWs).reverse.dropWhile isWs).reverse

/-- Python `unicodedata.normalize('NFD', s)`. -/
def nfd (s : Str) : Str := s.flatMap nfdChar

/-- Python `.encode('ascii', 'ignore').decode('ascii')`: keep codepoints below
128. -/
def asciiIgnore (s : Str) : Str := s.filter (fun c => decide (c < 128))

/-- Characters kept by `re.sub(r'[^A-Z0-9]', '', ·)`. -/
def isAlnumUp (c : Nat) : Bool :=
  decide ((65 ≤ c ∧ c ≤ 90) ∨ (48 ≤ c ∧ c ≤ 57))

/-- Tier1 canonicalization of an incident neighborhood name:
`main.py` line 255, `delitos_por_barrio['barrio'].str.upper().str.strip()`. -/
def tier1 (s : Str) : Str := pyStrip (pyUpper s)

/-- A value reaching `normalizar_texto`: either a Python string or a
non-string value carrying its `str()` rendering. -/
inductive PyVal where
  | s (v : Str)
  | other (repr : Str)
deriving DecidableEq

/-- The function `normalizar_texto` of `main.py` lines 278-285: for a string, NFD-decompose,
drop non-ASCII codepoints, uppercase, and keep only `[A-Z0-9]`; for a
non-string value, return `str(texto).upper()` unfiltered. -/
def normalizar_texto : PyVal → Str
  | .s v => (pyUpper (asciiIgnore (nfd v))).filter isAlnumUp
  | .other r => pyUpper r

/-- Tier2 canonicalization of a string (the string branch of
`normalizar_texto`). -/
def tier2 (s : Str) : Str := normalizar_texto (.s s)

/-! ## Generic list helpers (Python `set`, `unique`, `value_counts` order) -/

/-- Deduplication keeping the first occurrence of each element, as pandas
`Series.unique` and the key order of `value_counts` (keys are recorded in
order of first appearance).  `seen` accumulates elements already emitted. -/
def uniqFrom [DecidableEq α] (seen : List α) : List α → List α
  | [] => []
  | a :: t => if a ∈ seen then uniqFrom seen t else a :: uniqFrom (a :: seen) t

/-- Distinct elements in order of first appearance. -/
def uniq [DecidableEq α] (l : List α) : List α := uniqFrom [] l

/-- Number of occurrences of `x` in `l`. -/
def countv [DecidableEq α] (x : α) (l : List α) : Nat :=
  (l.filter (fun y => decide (y = x))).length

/-! ## The sentinel and fixed strings -/

/-- The "Sin datos" sentinel installed by `limpiar_barrio`/`limpiar_comuna`
(`main.py` lines 27-45). -/
def sinDatos : Str := [83, 105, 110, 32, 100, 97, 116, 111, 115]

/-- The token "barrio" searched for in GeoJSON property keys. -/
def strBarrio : Str := [98, 97, 114, 114, 105, 111]

/-- The token "nombre" searched for in GeoJSON property keys. -/
def strNombre : Str := [110, 111, 109, 98, 114, 101]

/-! ## BoundaryIndex: GeoJSON features and the name-key heuristic -/

/-- A GeoJSON feature's property mapping, in declaration order (geometry is
opaque to the matching logic and omitted). -/
structure Feature where
  props : List (Str × Str)
deriving DecidableEq

/-- Python dict lookup `props[key]`, `none` modelling a `KeyError`. -/
def lookupProp : List (Str × Str) → Str → Option Str
  | [], _ => none
  | (k, v) :: t, key => if k = key then some v else lookupProp t key

/-- Whether `pat` is a prefix of `s`. -/
def leadsWith : Str → Str → Bool
  | [], _ => true
  | _ :: _, [] => false
  | a :: as, b :: bs => if a = b then leadsWith as bs else false

/-- Python `pat in s` substring test. -/
def containsSub (pat : Str) : Str → Bool
  | [] => pat.isEmpty
  | c :: t => leadsWith pat (c :: t) || containsSub pat t

/-- The key predicate of `main.py` line 243:
`'barrio' in k.lower() or 'nombre' in k.lower()`. -/
def keyMatches (k : Str) : Bool :=
  containsSub strBarrio (pyLower k) || containsSub strNombre (pyLower k)

/-- The `barrio_key` selection (`main.py` lines 240-245): the first property key of
the FIRST feature that contains "barrio" or "nombre" case-insensitively,
otherwise the first key; `none` when the first feature has no keys at all
(in which case `list(properties_keys)[0]` raises `IndexError`). -/
def selectBarrioKey (keys : List Str) : Option Str :=
  match keys.find? keyMatches with
  | some k => some k
  | none => keys.head?

/-- Python exception kinds surfaced by the map section. -/
inductive PyErr where
  | indexError   -- features[0] or list(keys)[0] on an empty collection
  | keyError     -- feature['properties'][barrio_key] with the key missing
  | nameError    -- df_mapa referenced without ever being assigned
  | exc          -- the explicit `raise Exception(...)` at line 336
deriving DecidableEq

/-- Extract the raw name value of every feature under the selected key
(`main.py` lines 248-252 and 288-289 iterate all features and evaluate
`feature['properties'][barrio_key]`): a single feature missing the key makes
the whole construction raise `KeyError`. -/
def featureNames (features : List Feature) (key : Str) :
    Except PyErr (List Str) :=
  match features with
  | [] => .ok []
  | f :: t =>
    match lookupProp f.props key with
    | none => .error .keyError
    | some v =>
      match featureNames t key with
      | .error e => .error e
      | .ok vs => .ok (v :: vs)

/-! ## NameMatcher: the two-tier escalation of `main.py` lines 250-302 -/

/-- The local variables of one run of the matching block, recorded for both
tiers.  `counts` is `delitos_por_barrio` (neighborhood, incident count);
`names` are the features' raw name values. -/
structure MatchTrace where
  counts : List (Str × Nat)
  geoSet1 : List Str                 -- set of Tier1 feature ids (line 258-260)
  dataSet1 : List Str                -- set of Tier1 barrio_norm values (261)
  coinc1 : List Str                  -- barrios_coincidentes at Tier1 (263)
  filtrado1 : List (Str × Nat × Str) -- (barrio, cantidad, barrio_norm) rows (266)
  fallback : Bool                    -- the condition of line 269
  geoSetF : List Str                 -- final feature-id set
  dataSetF : List Str                -- final barrio_norm set
  coincF : List Str                  -- final barrios_coincidentes
  filtradoF : List (Str × Nat × Str) -- final delitos_por_barrio_filtrado
deriving DecidableEq

/-- Attach the normalized-name column `barrio_norm` to each count row. -/
def withNorm (f : Str → Str) (counts : List (Str × Nat)) :
    List (Str × Nat × Str) :=
  counts.map (fun r => (r.1, r.2, f r.1))

/-- Set intersection as in Python `set.intersection`, represented as the
duplicate-free sublist of `xs` whose elements occur in `ys`. -/
def interSet (xs ys : List Str) : List Str :=
  xs.filter (fun x => decide (x ∈ ys))

/-- The variables produced by one tier of the match. -/
structure TierResult where
  geoSet : List Str
  dataSet : List Str
  coinc : List Str
  rows : List (Str × Nat × Str)
deriving DecidableEq

/-- One tier of the match: canonicalize the feature names with `geoCanon`
(`feature['id'] = ...`), the data side with `dataCanon` (`barrio_norm`),
intersect, and filter the count rows to the intersection. -/
def matchTier (geoCanon dataCanon : Str → Str) (counts : List (Str × Nat))
    (names : List Str) : TierResult where
  geoSet := uniq (names.map geoCanon)
  dataSet := uniq (counts.map (fun r => dataCanon r.1))
  coinc := interSet (uniq (names.map geoCanon))
    (uniq (counts.map (fun r => dataCanon r.1)))
  rows := (withNorm dataCanon counts).filter (fun r =>
    decide (r.2.2 ∈ interSet (uniq (names.map geoCanon))
      (uniq (counts.map (fun r => dataCanon r.1)))))

/-- The two-tier match of `main.py` lines 250-302: Tier1 uses
`feature['properties'][barrio_key].upper()` against
`barrio.str.upper().str.strip()`; if `len(barrios_coincidentes) == 0 or
len(delitos_por_barrio_filtrado) == 0` (line 269), both sides are
re-canonicalized with `normalizar_texto` and re-intersected. -/
def runMatch (counts : List (Str × Nat)) (names : List Str) : MatchTrace :=
  let m1 := matchTier pyUpper tier1 counts names
  if m1.coinc.isEmpty || m1.rows.isEmpty then
    let m2 := matchTier (fun v => normalizar_texto (.s v)) tier2 counts names
    ⟨counts, m1.geoSet, m1.dataSet, m1.coinc, m1.rows, true,
      m2.geoSet, m2.dataSet, m2.coinc, m2.rows⟩
  else
    ⟨counts, m1.geoSet, m1.dataSet, m1.coinc, m1.rows, false,
      m1.geoSet, m1.dataSet, m1.coinc, m1.rows⟩

/-- The data-side canonicalization in force after the run: Tier2 when the
fallback fired, Tier1 otherwise. -/
def finalDataCanon (t : MatchTrace) : Str → Str :=
  if t.fallback then tier2 else tier1

/-- The coverage numbers the code reports (`main.py` line 299): the sizes of
`barrios_coincidentes` and of the set of distinct normalized neighborhood
names.  The printed report is "`num` de `den` barrios". -/
def coverageNum (t : MatchTrace) : Nat := t.coincF.length

/-- See `coverageNum`. -/
def coverageDen (t : MatchTrace) : Nat := t.dataSetF.length

/-- Coverage as a ratio of the two reported numbers, 0 when there is no data. -/
def coverage_ratio (t : MatchTrace) : ℚ :=
  if t.dataSetF.isEmpty then 0 else (coverageNum t : ℚ) / (coverageDen t : ℚ)

/-- The distinct normalized names with no boundary match at the final tier. -/
def unmatchedNames (t : MatchTrace) : List Str :=
  t.dataSetF.filter (fun x => decide (x ∉ t.coincF))

/-- Modelled from the spec's words, for comparison with the code (spec §4.3):
"`coverage_ratio` = matched total count / (matched + unmatched total count);
0 when there is no data", with "count" the incident counts of the rows
(glossary: "fraction of total incident count successfully joined"). -/
def coverage_ratio_specwords (t : MatchTrace) : ℚ :=
  let matchedNat : Nat := (t.filtradoF.map (fun r => r.2.1)).sum
  let totalNat : Nat := (t.counts.map Prod.snd).sum
  if totalNat = 0 then 0 else (matchedNat : ℚ) / (totalNat : ℚ)

/-! ## The filtered incident rows and the map section (`main.py` lines 194-361) -/

/-- One row of `df_filtrado`, restricted to the columns the modelled logic
reads: the cleaned `barrio`, the `comuna_display` value, and the numeric
coordinates (`none` modelling `NaN` after `pd.to_numeric(errors='coerce')`). -/
structure Row where
  barrio : Str
  comuna : Str
  lat : Option ℚ
  lon : Option ℚ
deriving DecidableEq

/-- The table `delitos_por_barrio` (`main.py` line 226): group the rows whose `barrio`
is not the sentinel by `barrio` and count.  The group keys are listed in
first-appearance order; pandas sorts group keys, but no property proved here
depends on row order of this table (only membership and totals). -/
def groupCounts (rows : List Row) : List (Str × Nat) :=
  let bs := (rows.map Row.barrio).filter (fun b => decide (b ≠ sinDatos))
  (uniq bs).map (fun b => (b, countv b bs))

/-- The table `df_mapa` (`main.py` lines 196-221): coordinates are rescaled by 1e-6 when
the column minimum or maximum exceeds 100 in absolute value (pandas `min`/
`max` skip `NaN`; on an all-`NaN` column the comparison with `NaN` is false),
then rows are kept only when both coordinates fall in the plausible Buenos
Aires box; a `NaN` coordinate fails the comparison and drops the row. -/
def dfMapa (rows : List Row) : List Row :=
  let lats := rows.filterMap Row.lat
  let lons := rows.filterMap Row.lon
  let latScale : Bool :=
    match lats.min?, lats.max? with
    | some mn, some mx => decide (100 < |mn|) || decide (100 < |mx|)
    | _, _ => false
  let lonScale : Bool :=
    match lons.min?, lons.max? with
    | some mn, some mx => decide (100 < |mn|) || decide (100 < |mx|)
    | _, _ => false
  let scaled := rows.map (fun r =>
    { r with
      lat := r.lat.map (fun x => if latScale then x / 1000000 else x),
      lon := r.lon.map (fun x => if lonScale then x / 1000000 else x) })
  scaled.filter (fun r =>
    match r.lat, r.lon with
    | some la, some lo => decide (-35 < la ∧ la < -34 ∧ -59 < lo ∧ lo < -58)
    | _, _ => false)

/-- What the map section ends up rendering. -/
inductive MapOutput where
  | choropleth (rows : List (Str × Nat × Str))
      -- the choropleth over delitos_por_barrio_filtrado (lines 307-330)
  | density (rows : List Row)
      -- the density fallback over df_mapa (lines 345-358)
  | noMapData
      -- lines 360-361: df_mapa defined but empty; an error message, no chart
deriving DecidableEq

/-- The body of the `try:` block at `main.py` lines 224-336, up to the figure
choice: build the boundary ids (raising `IndexError` on an empty feature list
or empty key set, `KeyError` on a feature missing the selected key), run the
two-tier match, and `raise Exception` (line 336) when the final filtered
table is empty. -/
def tryBody (counts : List (Str × Nat)) (features : List Feature) :
    Except PyErr (List (Str × Nat × Str)) :=
  match features with
  | [] => .error .indexError
  | f :: _ =>
    match selectBarrioKey (f.props.map Prod.fst) with
    | none => .error .indexError
    | some key =>
      match featureNames features key with
      | .error e => .error e
      | .ok names =>
        let t := runMatch counts names
        if t.filtradoF.isEmpty then .error .exc else .ok t.filtradoF

/-- The whole map section (`main.py` lines 194-361).  `df_mapa` is assigned
only under `if not df_filtrado.empty:` (line 194); the `except` handler
(lines 338-358) evaluates `df_mapa.empty`, which raises `NameError` when
`df_filtrado` was empty and `df_mapa` was therefore never assigned. -/
def mapSection (rows : List Row) (features : List Feature) :
    Except PyErr MapOutput :=
  let dfm : Option (List Row) := if rows.isEmpty then none else some (dfMapa rows)
  match tryBody (groupCounts rows) features with
  | .ok filt => .ok (.choropleth filt)
  | .error _ =>
    match dfm with
    | none => .error .nameError
    | some dm => if dm.isEmpty then .ok .noMapData else .ok (.density dm)

/-! ## DistrictResolver (`main.py` lines 479-496)

`comuna_counts = df[...]['comuna_display'].value_counts()` followed by
`comuna_principal = comuna_counts.idxmax()`.

pandas `value_counts` records keys in order of first appearance (the cython
hash-table keeps a separate first-seen vector, GH39009) and then applies
`sort_values(ascending=False)`, which computes an ascending argsort of the
counts and reverses it (`pandas.core.sorting.nargsort`).  For fewer than 17
distinct keys numpy's quicksort is an insertion sort and hence stable, so the
resulting order is: descending count, ties in REVERSE order of first
appearance.  `idxmax` then returns the label of the first maximal entry.
The model below reproduces exactly that: a stable ascending insertion sort on
the counts, reversed; it is faithful whenever there are at most 16 distinct
district values (there are 15 comunas in Buenos Aires). -/

/-- Stable insertion of a pair into a count-ascending list: the new pair goes
after every pair with an equal or smaller count. -/
def insertAsc (p : Str × Nat) : List (Str × Nat) → List (Str × Nat)
  | [] => [p]
  | q :: t => if p.2 < q.2 then p :: q :: t else q :: insertAsc p t

/-- Stable ascending insertion sort by count. -/
def sortAsc (l : List (Str × Nat)) : List (Str × Nat) :=
  l.foldl (fun acc p => insertAsc p acc) []

/-- pandas `Series.value_counts()` on a list of values: keys in first-seen
order with their multiplicities, sorted by count descending, ties in reverse
first-seen order (see the section comment for why). -/
def value_counts (xs : List Str) : List (Str × Nat) :=
  (sortAsc ((uniq xs).map (fun k => (k, countv k xs)))).reverse

/-- The maximum of the counts of a value-counts table (pandas `Series.max`). -/
def seriesMax (l : List (Str × Nat)) : Nat :=
  (l.map Prod.snd).foldl Nat.max 0

/-- pandas `Series.idxmax`: the label of the first entry attaining the
maximal value; `none` models the `ValueError` on an empty series (the code
reaches `idxmax` only under `len(comunas_barrio) > 0`). -/
def idxmax (l : List (Str × Nat)) : Option Str :=
  match l with
  | [] => none
  | _ => (l.find? (fun p => decide (p.2 = seriesMax l))).map Prod.fst

/-- One step of a running maximum that prefers the later element on ties. -/
def lastMaxStep (a p : Str × Nat) : Str × Nat := if a.2 ≤ p.2 then p else a

/-- The running maximum of a list of count pairs, starting from `z`,
preferring the later element on ties (a specification device used to
characterize the last element of the stable ascending sort). -/
def runMax (z : Str × Nat) (l : List (Str × Nat)) : Str × Nat :=
  l.foldl lastMaxStep z

/-- The `comuna_display` values of the rows of the selected neighborhood,
excluding the sentinel (`main.py` lines 487-488). -/
def comunaVals (rows : List Row) (sel : Str) : List Str :=
  (rows.filter (fun r => decide (r.barrio = sel ∧ r.comuna ≠ sinDatos))).map
    Row.comuna

/-- The list `comunas_barrio` (`main.py` lines 480-481): the distinct non-sentinel
comunas of the selected neighborhood, in order of first appearance
(pandas `unique`). -/
def comunasBarrio (rows : List Row) (sel : Str) : List Str :=
  uniq (comunaVals rows sel)

/-- The value `comuna_principal` (`main.py` line 489):
`value_counts().idxmax()` over the neighborhood's non-sentinel comunas. -/
def comuna_principal (rows : List Row) (sel : Str) : Option Str :=
  idxmax (value_counts (comunaVals rows sel))

/-- The ambiguity condition of `main.py` line 495:
`len(comunas_barrio) > 1` triggers the multi-comuna warning and breakdown. -/
def isAmbiguous (rows : List Row) (sel : Str) : Bool :=
  decide (1 < (comunasBarrio rows sel).length)

/-! ## Concrete inputs used by witnesses and counterexamples -/

/-- The string "PALERMO". -/
def strPALERMO : Str := [80, 65, 76, 69, 82, 77, 79]

/-- The string "Palermo". -/
def strPalermo : Str := [80, 97, 108, 101, 114, 109, 111]

/-- The string "XVILLE", a neighborhood name absent from the boundary data. -/
def strXVILLE : Str := [88, 86, 73, 76, 76, 69]

/-- A boundary feature named "Palermo" under the property key "nombre". -/
def fPalermo : Feature := ⟨[(strNombre, strPalermo)]⟩

/-- A boundary feature whose only property key is "x": no name property. -/
def fNoName : Feature := ⟨[([120], [118])]⟩

/-- A one-feature boundary collection. -/
def exFeatures : List Feature := [fPalermo]

/-- Three incident rows: two in PALERMO, one in XVILLE. -/
def exRowsMap : List Row :=
  [⟨strPALERMO, [55], none, none⟩,
   ⟨strPALERMO, [55], none, none⟩,
   ⟨strXVILLE, [55], none, none⟩]

/-- Two incident rows of one neighborhood "X", first in comuna "7", then in
comuna "14": a tie between two districts. -/
def exRowsTie : List Row :=
  [⟨[88], [55], none, none⟩, ⟨[88], [49, 52], none, none⟩]

/-- The matcher run on counts PALERMO=5, XVILLE=1 against the one "Palermo"
boundary feature name. -/
def exTrace : MatchTrace :=
  runMatch [(strPALERMO, 5), (strXVILLE, 1)] [strPalermo]

/-! # Lemmas -/

theorem mem_uniqFrom [DecidableEq α] (seen l : List α) (x : α) :
    x ∈ uniqFrom seen l ↔ x ∈ l ∧ x ∉ seen := by
  induction l generalizing seen with
  | nil => simp [uniqFrom]
  | cons a t ih =>
    by_cases h : a ∈ seen
    · simp only [uniqFrom, if_pos h, ih, List.mem_cons]
      constructor
      · rintro ⟨hx, hs⟩; exact ⟨Or.inr hx, hs⟩
      · rintro ⟨hx | hx, hs⟩
        · exact absurd (hx ▸ h) hs
        · exact ⟨hx, hs⟩
    · simp only [uniqFrom, if_neg h, List.mem_cons, ih]
      constructor
      · rintro (rfl | ⟨hx, hs⟩)
        · exact ⟨Or.inl rfl, h⟩
        · exact ⟨Or.inr hx, fun hc => hs (Or.inr hc)⟩
      · rintro ⟨rfl | hx, hs⟩
        · exact Or.inl rfl
        · by_cases hxa : x = a
          · exact Or.inl hxa
          · exact Or.inr ⟨hx, by simp [List.mem_cons, hxa, hs]⟩

theorem nodup_uniqFrom [DecidableEq α] (seen l : List α) :
    (uniqFrom seen l).Nodup := by
  induction l generalizing seen with
  | nil => simp [uniqFrom]
  | cons a t ih =>
    by_cases h : a ∈ seen
    · simpa [uniqFrom, if_pos h] using ih seen
    · simp only [uniqFrom, if_neg h]
      refine List.nodup_cons.mpr ⟨fun hmem => ?_, ih (a :: seen)⟩
      rcases (mem_uniqFrom _ _ _).mp hmem with ⟨_, hns⟩
      exact hns (List.mem_cons_self a _)

theorem mem_uniq [DecidableEq α] (l : List α) (x : α) :
    x ∈ uniq l ↔ x ∈ l := by
  simp [uniq, mem_uniqFrom]

theorem nodup_uniq [DecidableEq α] (l : List α) : (uniq l).Nodup :=
  nodup_uniqFrom [] l

theorem countv_pos [DecidableEq α] (x : α) (l : List α) :
    0 < countv x l ↔ x ∈ l := by
  simp only [countv, List.length_pos, ne_eq, List.filter_eq_nil_iff]
  constructor
  · intro h
    by_contra hx
    exact h (fun a ha => by simp; rintro rfl; exact hx ha)
  · intro hx h
    have := h x hx
    simp at this

theorem mem_interSet (xs ys : List Str) (x : Str) :
    x ∈ interSet xs ys ↔ x ∈ xs ∧ x ∈ ys := by
  simp [interSet, List.mem_filter]

theorem nodup_interSet (xs ys : List Str) (h : xs.Nodup) :
    (interSet xs ys).Nodup := h.filter _

theorem interSet_subset_right (xs ys : List Str) (x : Str)
    (hx : x ∈ interSet xs ys) : x ∈ ys :=
  ((mem_interSet xs ys x).mp hx).2

/-- If the intersection of one tier is non-empty, so is its filtered row
table: every intersection element is the normalized name of some count row,
and that row survives the `isin` filter. -/
theorem matchTier_rows_ne_nil (g d : Str → Str) (counts : List (Str × Nat))
    (names : List Str) (h : (matchTier g d counts names).coinc ≠ []) :
    (matchTier g d counts names).rows ≠ [] := by
  rcases List.exists_mem_of_ne_nil _ h with ⟨x, hx⟩
  have hx' := hx
  rw [matchTier] at hx'
  simp only [] at hx'
  have hdata : x ∈ uniq (counts.map (fun r => d r.1)) :=
    interSet_subset_right _ _ _ hx'
  rw [mem_uniq, List.mem_map] at hdata
  rcases hdata with ⟨r, hr, hrx⟩
  have hmem : (r.1, r.2, d r.1) ∈ (matchTier g d counts names).rows := by
    rw [matchTier]
    simp only [List.mem_filter, withNorm, List.mem_map]
    refine ⟨⟨r, hr, rfl⟩, ?_⟩
    simpa [hrx] using hx'
  intro hnil
  rw [hnil] at hmem
  exact List.not_mem_nil _ hmem

theorem runMatch_counts (counts : List (Str × Nat)) (names : List Str) :
    (runMatch counts names).counts = counts := by
  unfold runMatch
  dsimp only
  split <;> rfl

theorem runMatch_coinc1 (counts : List (Str × Nat)) (names : List Str) :
    (runMatch counts names).coinc1 = (matchTier pyUpper tier1 counts names).coinc := by
  unfold runMatch
  dsimp only
  split <;> rfl

theorem runMatch_filtrado1 (counts : List (Str × Nat)) (names : List Str) :
    (runMatch counts names).filtrado1 = (matchTier pyUpper tier1 counts names).rows := by
  unfold runMatch
  dsimp only
  split <;> rfl

theorem runMatch_fallback_iff (counts : List (Str × Nat)) (names : List Str) :
    (runMatch counts names).fallback = true ↔
      (runMatch counts names).coinc1 = [] := by
  rw [runMatch_coinc1]
  unfold runMatch
  constructor
  · intro h
    by_contra hne
    have hrows := matchTier_rows_ne_nil pyUpper tier1 counts names hne
    rw [if_neg (by simp [hne, hrows, List.isEmpty_iff])] at h
    exact Bool.false_ne_true h
  · intro h
    rw [if_pos (by simp [h, List.isEmpty_iff])]

theorem runMatch_of_tier1_nonempty (counts : List (Str × Nat))
    (names : List Str) (h : (runMatch counts names).coinc1 ≠ []) :
    (runMatch counts names).fallback = false ∧
      (runMatch counts names).filtradoF = (runMatch counts names).filtrado1 ∧
      (runMatch counts names).coincF = (runMatch counts names).coinc1 := by
  rw [runMatch_coinc1] at h
  have hrows := matchTier_rows_ne_nil pyUpper tier1 counts names h
  have hcond : ((matchTier pyUpper tier1 counts names).coinc.isEmpty ||
      (matchTier pyUpper tier1 counts names).rows.isEmpty) = false := by
    simp [h, hrows, List.isEmpty_iff]
  unfold runMatch
  rw [if_neg (by simp [hcond])]
  exact ⟨rfl, rfl, rfl⟩

/-! # Claim theorems -/

/-- Claim C1: the NameMatcher escalates in two tiers.  The Tier2
re-canonicalization and re-intersection runs if and only if the Tier1
intersection is empty (the code's fallback condition
`len(barrios_coincidentes) == 0 or len(delitos_por_barrio_filtrado) == 0`
collapses to emptiness of the intersection, because a non-empty intersection
always leaves at least one matched row), and when the Tier1 intersection is
non-empty the Tier1 match set is the final one. -/
theorem c1_two_tier_escalation (counts : List (Str × Nat)) (names : List Str) :
    ((runMatch counts names).fallback = true ↔
      (runMatch counts names).coinc1 = []) ∧
    ((runMatch counts names).coinc1 ≠ [] →
      (runMatch counts names).fallback = false ∧
      (runMatch counts names).filtradoF = (runMatch counts names).filtrado1 ∧
      (runMatch counts names).coincF = (runMatch counts names).coinc1) :=
  ⟨runMatch_fallback_iff counts names, runMatch_of_tier1_nonempty counts names⟩

/-- Witness for C1 at the concrete trace `exTrace` (PALERMO matches at Tier1,
so no fallback and the Tier1 row set is final). -/
theorem c1_two_tier_escalation_witness :
    exTrace.fallback = false ∧ exTrace.filtradoF = exTrace.filtrado1 ∧
      exTrace.coincF = exTrace.coinc1 :=
  (c1_two_tier_escalation [(strPALERMO, 5), (strXVILLE, 1)] [strPalermo]).2
    (by decide)

/-- Claim C9: for boundary name "Núñez" and incident neighborhood "NUÑEZ "
(with a trailing space), the two Tier1 canonical forms differ ("NÚÑEZ" with
its accent vs "NUÑEZ"), so Tier1 fails to match, while Tier2 canonicalization
sends both to the same string "NUNEZ". -/
theorem c9_nunez_example :
    pyUpper [78, 250, 241, 101, 122] ≠ tier1 [78, 85, 209, 69, 90, 32] ∧
    tier2 [78, 250, 241, 101, 122] = [78, 85, 78, 69, 90] ∧
    tier2 [78, 85, 209, 69, 90, 32] = [78, 85, 78, 69, 90] := by
  refine ⟨?_, by decide, by decide⟩
  decide

/-- Claim C10: on a string input the Tier2 canonicalizer emits only ASCII
uppercase letters and digits; on a non-string input it returns the
stringified, uppercased value with no diacritic stripping or alphanumeric
filtering, so for example the float rendered "3.5" keeps its decimal point
(codepoint 46), which is outside `[A-Z0-9]`. -/
theorem c10_tier2_output_charset :
    (∀ (s : Str) (c : Nat), c ∈ normalizar_texto (.s s) → isAlnumUp c = true) ∧
    (normalizar_texto (.other [51, 46, 53]) = [51, 46, 53] ∧
      (46 : Nat) ∈ normalizar_texto (.other [51, 46, 53]) ∧
      isAlnumUp 46 = false) := by
  refine ⟨fun s c hc => ?_, by decide, by decide, by decide⟩
  exact List.of_mem_filter hc

/-- Witness for C10: the membership hypothesis of the universally quantified
part, discharged at the concrete string "a!" (codepoints [97, 33]), whose
Tier2 form is "A" (codepoint 65). -/
theorem c10_tier2_output_charset_witness : isAlnumUp 65 = true :=
  c10_tier2_output_charset.1 [97, 33] 65 (by decide)

/-- Counterexample to claim C7 as stated: Tier1-equality does NOT imply
Tier2-equality for every pair of strings.  Python's `str.upper` maps "ß"
(U+00DF) to "SS", so "ß" and "ss" agree at Tier1; but NFD leaves U+00DF
intact and the ASCII re-encoding then discards it, so Tier2 maps "ß" to the
empty string and "ss" to "SS". -/
theorem c7_monotonicity_counterexample :
    tier1 [223] = tier1 [115, 115] ∧ tier2 [223] ≠ tier2 [115, 115] := by
  refine ⟨by decide, ?_⟩
  decide

end Delitos

namespace Delitos

/-! ## Tier monotonicity (claim C7): Tier2 factors through Tier1 away from ß -/

theorem tier2_append (x y : Str) : tier2 (x ++ y) = tier2 x ++ tier2 y := by
  simp [tier2, normalizar_texto, nfd, asciiIgnore, pyUpper, List.filter_append]

theorem tier2_singleton_ws (c : Nat) (h : isWs c = true) : tier2 [c] = [] := by
  have : c = 32 ∨ c = 9 ∨ c = 10 ∨ c = 13 := by
    simp only [isWs, Bool.or_eq_true, beq_iff_eq] at h
    tauto
  rcases this with rfl | rfl | rfl | rfl <;> decide

theorem tier2_of_all_ws (s : Str) (h : ∀ c ∈ s, isWs c = true) :
    tier2 s = [] := by
  induction s with
  | nil => decide
  | cons c t ih =>
    have : (c :: t) = [c] ++ t := rfl
    rw [this, tier2_append, tier2_singleton_ws c (h c (by simp)),
      ih (fun d hd => h d (by simp [hd]))]
    rfl

/-- Dropping trailing whitespace (via the double reverse of `pyStrip`) splits
off a whitespace suffix. -/
theorem rev_drop_decomp (l : Str) :
    ∃ q : Str, l = (l.reverse.dropWhile isWs).reverse ++ q ∧
      ∀ c ∈ q, isWs c = true := by
  refine ⟨(l.reverse.takeWhile isWs).reverse, ?_, fun c hc =>
    List.mem_takeWhile_imp (List.mem_reverse.mp hc)⟩
  have h2 : l.reverse = l.reverse.takeWhile isWs ++ l.reverse.dropWhile isWs :=
    (List.takeWhile_append_dropWhile (p := isWs) (l := l.reverse)).symm
  have h3 := congrArg List.reverse h2
  rw [List.reverse_reverse, List.reverse_append] at h3
  exact h3

/-- Python `str.strip` splits a string into a whitespace prefix, the stripped core,
and a whitespace suffix. -/
theorem pyStrip_decomposition (s : Str) :
    ∃ p q : Str, s = p ++ pyStrip s ++ q ∧
      (∀ c ∈ p, isWs c = true) ∧ (∀ c ∈ q, isWs c = true) := by
  obtain ⟨q, hq, hqws⟩ := rev_drop_decomp (s.dropWhile isWs)
  refine ⟨s.takeWhile isWs, q, ?_, fun c hc => List.mem_takeWhile_imp hc, hqws⟩
  unfold pyStrip
  rw [List.append_assoc, ← hq, List.takeWhile_append_dropWhile]

theorem tier2_pyStrip (s : Str) : tier2 (pyStrip s) = tier2 s := by
  rcases pyStrip_decomposition s with ⟨p, q, hs, hp, hq⟩
  conv_rhs => rw [hs]
  rw [tier2_append, tier2_append, tier2_of_all_ws p hp, tier2_of_all_ws q hq]
  simp

theorem tier2_pyUpperChar (c : Nat) (h : c ≠ 223) :
    tier2 (pyUpperChar c) = tier2 [c] := by
  simp only [pyUpperChar]
  split_ifs with h1 h2 h3 h4 h5 h6 h7 h8
  · obtain ⟨ha, hb⟩ := h1
    interval_cases c <;> decide
  · subst h2; decide
  · subst h3; decide
  · subst h4; decide
  · subst h5; decide
  · subst h6; decide
  · subst h7; decide
  · subst h8; decide
  · rfl

theorem tier2_pyUpper (s : Str) (h : ∀ c ∈ s, c ≠ 223) :
    tier2 (pyUpper s) = tier2 s := by
  induction s with
  | nil => rfl
  | cons c t ih =>
    have hcons : pyUpper (c :: t) = pyUpperChar c ++ pyUpper t := by
      simp [pyUpper]
    rw [hcons, tier2_append, tier2_pyUpperChar c (h c (by simp)),
      ih (fun d hd => h d (by simp [hd])),
      show (c :: t) = [c] ++ t from rfl, tier2_append]

/-- For strings free of ß, Tier2 canonicalization factors through Tier1. -/
theorem tier2_tier1 (s : Str) (h : ∀ c ∈ s, c ≠ 223) :
    tier2 (tier1 s) = tier2 s := by
  unfold tier1
  rw [tier2_pyStrip, tier2_pyUpper s h]

/-- Claim C7, amended: for every pair of strings containing no ß (U+00DF —
the one modelled character whose uppercase expansion "SS" is destroyed by the
NFD + ASCII step, see `c7_monotonicity_counterexample`), Tier1-equality
implies Tier2-equality; the converse still fails, e.g. for "A B" vs "AB". -/
theorem c7_tier_monotonicity_amended :
    (∀ a b : Str, (∀ c ∈ a, c ≠ 223) → (∀ c ∈ b, c ≠ 223) →
      tier1 a = tier1 b → tier2 a = tier2 b) ∧
    (tier1 [65, 32, 66] ≠ tier1 [65, 66] ∧
      tier2 [65, 32, 66] = tier2 [65, 66]) := by
  refine ⟨fun a b ha hb h1 => ?_, by decide, by decide⟩
  rw [← tier2_tier1 a ha, ← tier2_tier1 b hb, h1]

/-- Witness for the amended C7 at "a" vs "A": both sides are ß-free and
Tier1-equal, hence Tier2-equal. -/
theorem c7_tier_monotonicity_amended_witness : tier2 [97] = tier2 [65] :=
  c7_tier_monotonicity_amended.1 [97] [65] (by decide) (by decide) (by decide)

/-! ## Claims C3, C4, C8: empty input, unmatched rows, index construction -/

/-- Claim C3, showing the code bug: on an empty incident set the grouped
count table is indeed empty and the matcher's reported coverage is `0 de 0`
(ratio 0), but the script does NOT complete without an exception: the
choropleth path raises (no matches), and the `except` handler then evaluates
`df_mapa.empty` although `df_mapa` was assigned only under
`if not df_filtrado.empty:` — an unhandled `NameError` propagates. -/
theorem c3_empty_incident_set :
    groupCounts [] = [] ∧
    coverage_ratio (runMatch (groupCounts []) [strPalermo]) = 0 ∧
    mapSection [] exFeatures = Except.error PyErr.nameError := by
  refine ⟨rfl, by decide, by rfl⟩

/-- Inversion of `runMatch`'s final row table: it is the count table with the
final-tier normalized-name column, filtered to the final intersection. -/
theorem runMatch_filtradoF (counts : List (Str × Nat)) (names : List Str) :
    (runMatch counts names).filtradoF =
      (withNorm (finalDataCanon (runMatch counts names)) counts).filter
        (fun r => decide (r.2.2 ∈ (runMatch counts names).coincF)) := by
  unfold runMatch finalDataCanon
  dsimp only
  split <;> rfl

/-- Claim C4, amended: when the map section emits a choropleth, the emitted
table is exactly the matched rows (each with its normalized name, the
boundary join key, attached); a count row whose final-tier canonical name
missed the intersection appears in no emitted output — the code has no
separate "unmatched" table, and the density fallback (which renders only
when the choropleth path fails and then shows the coordinate rows of all
incidents) is not emitted in that case. -/
theorem c4_matched_rows_only (rows : List Row) (features : List Feature)
    (filt : List (Str × Nat × Str))
    (h : mapSection rows features = Except.ok (MapOutput.choropleth filt)) :
    ∃ f fs key names,
      features = f :: fs ∧
      selectBarrioKey (f.props.map Prod.fst) = some key ∧
      featureNames features key = Except.ok names ∧
      filt = (runMatch (groupCounts rows) names).filtradoF ∧
      ∀ p ∈ groupCounts rows,
        finalDataCanon (runMatch (groupCounts rows) names) p.1 ∉
          (runMatch (groupCounts rows) names).coincF →
        ∀ r ∈ filt, r.1 ≠ p.1 := by
  simp only [mapSection] at h
  rcases htb : tryBody (groupCounts rows) features with e | filt'
  · rw [htb] at h
    by_cases hrows : rows.isEmpty = true
    · simp [hrows] at h
    · rw [Bool.not_eq_true] at hrows
      rw [hrows] at h
      simp only [Bool.false_eq_true, if_false] at h
      split at h <;> simp at h
  · rw [htb] at h
    simp only [Except.ok.injEq, MapOutput.choropleth.injEq] at h
    subst h
    unfold tryBody at htb
    rcases features with _ | ⟨f, fs⟩
    · exact absurd htb (by simp)
    · dsimp only at htb
      rcases hsel : selectBarrioKey (f.props.map Prod.fst) with _ | key <;>
        rw [hsel] at htb <;> dsimp only at htb
      · exact absurd htb (by simp)
      rcases hfn : featureNames (f :: fs) key with e | names <;>
        rw [hfn] at htb <;> dsimp only at htb
      · exact absurd htb (by simp)
      split at htb
      · exact absurd htb (by simp)
      have hfilt : filt' = (runMatch (groupCounts rows) names).filtradoF := by
        cases htb
        rfl
      refine ⟨f, fs, key, names, rfl, hsel, hfn, hfilt, ?_⟩
      intro p hp hnot r hr hrp
      rw [hfilt, runMatch_filtradoF] at hr
      rcases List.mem_filter.mp hr with ⟨hr1, hr2⟩
      rcases List.mem_map.mp hr1 with ⟨q, _, hq⟩
      apply hnot
      have hnorm : r.2.2 = finalDataCanon (runMatch (groupCounts rows) names) q.1 := by
        rw [← hq]
      have hq1 : r.1 = q.1 := by rw [← hq]
      rw [← hrp, hq1, ← hnorm]
      exact of_decide_eq_true hr2

/-- Witness for the amended C4 at the concrete map-section run of
`exRowsMap` against `exFeatures` (PALERMO matched, XVILLE silently
excluded). -/
theorem c4_matched_rows_only_witness :
    ∃ f fs key names,
      exFeatures = f :: fs ∧
      selectBarrioKey (f.props.map Prod.fst) = some key ∧
      featureNames exFeatures key = Except.ok names ∧
      [(strPALERMO, 2, strPALERMO)] =
        (runMatch (groupCounts exRowsMap) names).filtradoF ∧
      ∀ p ∈ groupCounts exRowsMap,
        finalDataCanon (runMatch (groupCounts exRowsMap) names) p.1 ∉
          (runMatch (groupCounts exRowsMap) names).coincF →
        ∀ r ∈ [(strPALERMO, 2, strPALERMO)], r.1 ≠ p.1 :=
  c4_matched_rows_only exRowsMap exFeatures [(strPALERMO, 2, strPALERMO)]
    (by rfl)

/-- Counterexample to claim C4 as stated: the XVILLE count row matches the
boundary index at neither tier, yet the map section's entire output is the
choropleth over the matched PALERMO row alone — the unmatched row is not
"emitted in a separate unmatched output", it is silently dropped, and no
density-based fallback is rendered. -/
theorem c4_unmatched_row_counterexample :
    mapSection exRowsMap exFeatures =
      Except.ok (MapOutput.choropleth [(strPALERMO, 2, strPALERMO)]) ∧
    (strXVILLE, 1) ∈ groupCounts exRowsMap ∧
    tier1 strXVILLE ∉
      (matchTier pyUpper tier1 (groupCounts exRowsMap) [strPalermo]).geoSet ∧
    tier2 strXVILLE ∉
      (matchTier (fun v => normalizar_texto (.s v)) tier2
        (groupCounts exRowsMap) [strPalermo]).geoSet ∧
    ∀ r ∈ [(strPALERMO, 2, strPALERMO)], r.1 ≠ strXVILLE := by
  exact ⟨by rfl, by decide, by decide, by decide, by decide⟩

/-- Claim C8, amended: boundary-index construction over the selected name
key succeeds — indexing every feature, skipping none — exactly when every
feature carries that key; a single feature missing it makes the whole
construction raise `KeyError` (there is no per-feature skip and no skip
count; the error is only absorbed by the catch-all `except` around the whole
choropleth attempt). -/
theorem c8_index_construction (features : List Feature) (key : Str) :
    ((∀ f ∈ features, lookupProp f.props key ≠ none) →
      ∃ names, featureNames features key = Except.ok names ∧
        names.length = features.length) ∧
    ((∃ f ∈ features, lookupProp f.props key = none) →
      featureNames features key = Except.error PyErr.keyError) := by
  induction features with
  | nil =>
    exact ⟨fun _ => ⟨[], rfl, rfl⟩, fun ⟨f, hf, _⟩ => absurd hf (by simp)⟩
  | cons f t ih =>
    constructor
    · intro hall
      rcases hv : lookupProp f.props key with _ | v
      · exact absurd hv (hall f (by simp))
      rcases ih.1 (fun g hg => hall g (by simp [hg])) with ⟨names, hn, hl⟩
      refine ⟨v :: names, ?_, by simp [hl]⟩
      unfold featureNames
      rw [hv, hn]
    · rintro ⟨g, hg, hmiss⟩
      rcases List.mem_cons.mp hg with rfl | hgt
      · unfold featureNames
        rw [hmiss]
      · rcases hv : lookupProp f.props key with _ | v
        · unfold featureNames
          rw [hv]
        · unfold featureNames
          rw [hv, ih.2 ⟨g, hgt, hmiss⟩]

/-- Witness for the amended C8: with every feature carrying the key "nombre"
(here the single feature `fPalermo`), construction succeeds and indexes all
features. -/
theorem c8_index_construction_witness :
    ∃ names, featureNames [fPalermo] strNombre = Except.ok names ∧
      names.length = [fPalermo].length :=
  (c8_index_construction [fPalermo] strNombre).1 (by decide)

/-- Counterexample to claim C8 as stated: with the key "nombre" selected from
the first feature, the second feature (whose only property key is "x") makes
`feature['properties'][barrio_key]` raise `KeyError` — the feature is not
skipped and no skip count is produced; the entire choropleth attempt is
abandoned instead. -/
theorem c8_missing_property_counterexample :
    selectBarrioKey (fPalermo.props.map Prod.fst) = some strNombre ∧
    lookupProp fNoName.props strNombre = none ∧
    featureNames [fPalermo, fNoName] strNombre =
      Except.error PyErr.keyError ∧
    tryBody [(strPALERMO, 5)] [fPalermo, fNoName] =
      Except.error PyErr.keyError := by
  exact ⟨by decide, by decide, by rfl, by rfl⟩

/-! ## Claim C6: the coverage numbers -/

/-- The final coincidence and name sets of a match run are duplicate-free and
the former is contained in the latter (they come from Python sets). -/
theorem runMatch_final_sets (counts : List (Str × Nat)) (names : List Str) :
    (runMatch counts names).coincF.Nodup ∧
    (runMatch counts names).dataSetF.Nodup ∧
    ∀ x ∈ (runMatch counts names).coincF,
      x ∈ (runMatch counts names).dataSetF := by
  unfold runMatch
  dsimp only
  split <;>
    exact ⟨nodup_interSet _ _ (nodup_uniq _), nodup_uniq _,
      fun x hx => interSet_subset_right _ _ _ hx⟩

/-- Claim C6, amended: the coverage the code reports is the number of matched
distinct canonical names over the number of distinct canonical names present
in the data (not the incident-count-weighted ratio of the spec's formula,
see `c6_coverage_counterexample`).  As a ratio it is 0 when there is no
data, always lies in [0,1], is 0 exactly when the matched set is empty, and
— provided at least one neighborhood has data — is 1 exactly when the
unmatched set is empty. -/
theorem c6_coverage_ratio_amended (counts : List (Str × Nat))
    (names : List Str) :
    0 ≤ coverage_ratio (runMatch counts names) ∧
    coverage_ratio (runMatch counts names) ≤ 1 ∧
    (coverage_ratio (runMatch counts names) = 0 ↔
      (runMatch counts names).coincF = []) ∧
    ((runMatch counts names).dataSetF ≠ [] →
      (coverage_ratio (runMatch counts names) = 1 ↔
        unmatchedNames (runMatch counts names) = [])) := by
  obtain ⟨hC, hD, hsub⟩ := runMatch_final_sets counts names
  set t := runMatch counts names with ht
  by_cases hemp : t.dataSetF.isEmpty
  · have hDnil : t.dataSetF = [] := by simpa [List.isEmpty_iff] using hemp
    have hCnil : t.coincF = [] := by
      rcases hc : t.coincF with _ | ⟨x, xs⟩
      · rfl
      · have := hsub x (by rw [hc]; simp)
        rw [hDnil] at this
        simp at this
    have hr : coverage_ratio t = 0 := by
      unfold coverage_ratio
      rw [if_pos hemp]
    refine ⟨by rw [hr], by rw [hr]; norm_num, by simp [hr, hCnil], ?_⟩
    intro hne
    exact absurd hDnil hne
  · have hDne : t.dataSetF ≠ [] := by
      simpa [List.isEmpty_iff] using hemp
    have hlen : t.coincF.length ≤ t.dataSetF.length := by
      have hfin : t.coincF.toFinset ⊆ t.dataSetF.toFinset := by
        intro x hx
        rw [List.mem_toFinset] at hx ⊢
        exact hsub x hx
      calc t.coincF.length = t.coincF.toFinset.card :=
            (List.toFinset_card_of_nodup hC).symm
        _ ≤ t.dataSetF.toFinset.card := Finset.card_le_card hfin
        _ = t.dataSetF.length := List.toFinset_card_of_nodup hD
    have hdpos : 0 < t.dataSetF.length := List.length_pos.mpr hDne
    have hr : coverage_ratio t =
        (t.coincF.length : ℚ) / (t.dataSetF.length : ℚ) := by
      unfold coverage_ratio
      rw [if_neg hemp]
      rfl
    have hdq : (0 : ℚ) < (t.dataSetF.length : ℚ) := by
      exact_mod_cast hdpos
    refine ⟨?_, ?_, ?_, fun _ => ?_⟩
    · rw [hr]
      positivity
    · rw [hr]
      rw [div_le_one hdq]
      exact_mod_cast hlen
    · rw [hr, div_eq_zero_iff]
      constructor
      · rintro (h0 | h0)
        · rw [← List.length_eq_zero]
          exact_mod_cast h0
        · exact absurd h0 (ne_of_gt hdq)
      · intro h0
        left
        rw [h0]
        simp
    · rw [hr, div_eq_one_iff_eq (ne_of_gt hdq)]
      constructor
      · intro heq
        have hlene : t.coincF.length = t.dataSetF.length := by exact_mod_cast heq
        have hfin : t.coincF.toFinset = t.dataSetF.toFinset := by
          apply Finset.eq_of_subset_of_card_le
          · intro x hx
            rw [List.mem_toFinset] at hx ⊢
            exact hsub x hx
          · rw [List.toFinset_card_of_nodup hC, List.toFinset_card_of_nodup hD,
              hlene]
        rw [unmatchedNames, List.filter_eq_nil_iff]
        intro x hx
        have hxC : x ∈ t.coincF := by
          rw [← List.mem_toFinset, hfin, List.mem_toFinset]
          exact hx
        simp [hxC]
      · intro hun
        rw [unmatchedNames, List.filter_eq_nil_iff] at hun
        have hDC : ∀ x ∈ t.dataSetF, x ∈ t.coincF := by
          intro x hx
          have := hun x hx
          simpa using this
        have hfin : t.dataSetF.toFinset ⊆ t.coincF.toFinset := by
          intro x hx
          rw [List.mem_toFinset] at hx ⊢
          exact hDC x hx
        have : t.dataSetF.length ≤ t.coincF.length := by
          calc t.dataSetF.length = t.dataSetF.toFinset.card :=
                (List.toFinset_card_of_nodup hD).symm
            _ ≤ t.coincF.toFinset.card := Finset.card_le_card hfin
            _ = t.coincF.length := List.toFinset_card_of_nodup hC
        exact_mod_cast Nat.le_antisymm hlen this

/-- Witness for the amended C6 at the concrete trace `exTrace`
(one matched name of two, data present). -/
theorem c6_coverage_ratio_amended_witness :
    coverage_ratio exTrace = 1 ↔ unmatchedNames exTrace = [] :=
  (c6_coverage_ratio_amended [(strPALERMO, 5), (strXVILLE, 1)]
    [strPalermo]).2.2.2 (by decide)

/-- Counterexample to claim C6 as stated: with PALERMO (5 incidents) matched
and XVILLE (1 incident) unmatched, the code's reported coverage is 1 of 2
distinct neighborhoods — ratio 1/2 — while the claim's incident-weighted
formula gives 5/6.  Moreover the claim's "equals 1 iff unmatched is empty"
already fails on its own 0-when-no-data convention: with no data the
unmatched set is empty yet the ratio is 0. -/
theorem c6_coverage_counterexample :
    coverage_ratio exTrace = 1 / 2 ∧
    coverage_ratio_specwords exTrace = 5 / 6 ∧
    coverage_ratio exTrace ≠ coverage_ratio_specwords exTrace ∧
    (unmatchedNames (runMatch [] []) = [] ∧
      coverage_ratio (runMatch [] []) ≠ 1) := by
  have h3 : exTrace.dataSetF.isEmpty = false := by decide
  have hr : coverage_ratio exTrace = 1 / 2 := by
    have h1 : coverageNum exTrace = 1 := by decide
    have h2 : coverageDen exTrace = 2 := by decide
    unfold coverage_ratio
    rw [h1, h2, h3]
    norm_num
  have hs : coverage_ratio_specwords exTrace = 5 / 6 := by
    have h4 : (exTrace.filtradoF.map (fun r => r.2.1)).sum = 5 := by decide
    have h5 : (exTrace.counts.map Prod.snd).sum = 6 := by decide
    simp only [coverage_ratio_specwords]
    rw [h4, h5]
    norm_num
  have h6 : (runMatch ([] : List (Str × Nat)) []).dataSetF.isEmpty = true := by
    decide
  refine ⟨hr, hs, by rw [hr, hs]; norm_num, by decide, ?_⟩
  unfold coverage_ratio
  rw [h6]
  norm_num

/-! ## Claim C5: the ambiguity flag -/

/-- Claim C5: for a neighborhood that has a resolved district at all (at
least one non-sentinel district row), the multi-comuna warning fires iff at
least two distinct non-sentinel district values occur among its rows. -/
theorem c5_ambiguity_flag (rows : List Row) (sel : Str)
    (h : comunasBarrio rows sel ≠ []) :
    isAmbiguous rows sel = true ↔
      ∃ c1 c2, c1 ∈ comunaVals rows sel ∧ c2 ∈ comunaVals rows sel ∧
        c1 ≠ c2 := by
  unfold isAmbiguous comunasBarrio
  rw [decide_eq_true_iff]
  constructor
  · intro hlen
    rcases hu : uniq (comunaVals rows sel) with _ | ⟨a, t⟩
    · rw [hu] at hlen
      simp at hlen
    rcases ht : t with _ | ⟨b, t'⟩
    · rw [hu, ht] at hlen
      simp at hlen
    have hnd := nodup_uniq (comunaVals rows sel)
    rw [hu, ht] at hnd
    have hab : a ≠ b := by
      rcases List.nodup_cons.mp hnd with ⟨ha, _⟩
      intro hcontra
      exact ha (by rw [hcontra]; simp)
    refine ⟨a, b, ?_, ?_, hab⟩
    · rw [← mem_uniq, hu]
      simp
    · rw [← mem_uniq, hu, ht]
      simp
  · rintro ⟨c1, c2, h1, h2, hne⟩
    by_contra hlen
    push_neg at hlen
    rw [← mem_uniq] at h1 h2
    rcases hl : uniq (comunaVals rows sel) with _ | ⟨x, t⟩
    · rw [hl] at h1
      simp at h1
    · rcases t with _ | ⟨y, t2⟩
      · rw [hl] at h1 h2
        simp at h1 h2
        exact hne (h1.trans h2.symm)
      · rw [hl] at hlen
        simp at hlen

/-- Witness for C5 at `exRowsTie` (neighborhood "X" tagged with comunas "7"
and "14"): the flag is set. -/
theorem c5_ambiguity_flag_witness : isAmbiguous exRowsTie [88] = true :=
  (c5_ambiguity_flag exRowsTie [88] (by decide)).mpr
    ⟨[55], [49, 52], by decide, by decide, by decide⟩

/-! ## Claim C2: the district majority vote and its tie-break

The characterization of `value_counts(...).idxmax()` proceeds in three steps:
the last element of the stable ascending insertion sort is the running
maximum `runMax` of the key/count pairs (preferring later elements on ties);
`runMax` is the unique max-count pair after which no other max-count pair
occurs; and `idxmax` picks the head of the reversed (descending) list. -/

theorem mem_insertAsc (p : Str × Nat) (l : List (Str × Nat)) (x : Str × Nat) :
    x ∈ insertAsc p l ↔ x = p ∨ x ∈ l := by
  induction l with
  | nil => simp [insertAsc]
  | cons q t ih =>
    unfold insertAsc
    split
    · simp [List.mem_cons]
    · simp only [List.mem_cons, ih]
      tauto

theorem insertAsc_of_ge (p : Str × Nat) (l : List (Str × Nat))
    (h : ∀ q ∈ l, q.2 ≤ p.2) : insertAsc p l = l ++ [p] := by
  induction l with
  | nil => rfl
  | cons q t ih =>
    unfold insertAsc
    rw [if_neg (by simpa using h q (by simp)), ih (fun r hr => h r (by simp [hr]))]
    rfl

theorem getLast?_insertAsc_of_lt (p : Str × Nat) (l : List (Str × Nat))
    (z : Str × Nat) (hl : l.getLast? = some z) (hp : p.2 < z.2) :
    (insertAsc p l).getLast? = some z := by
  induction l with
  | nil => simp at hl
  | cons q t ih =>
    unfold insertAsc
    rcases ht : t with _ | ⟨r, t2⟩
    · rw [ht] at hl
      simp only [List.getLast?_singleton] at hl
      cases hl
      rw [if_pos hp]
      rfl
    · rw [← ht]
      have hlt : t.getLast? = some z := by
        rw [ht] at hl ⊢
        simpa using hl
      split
      · simpa [List.getLast?_cons_cons, ht] using hl
      · have hthis := ih hlt
        rcases hia : insertAsc p t with _ | ⟨u, ut⟩
        · rw [hia] at hthis
          simp at hthis
        · rw [List.getLast?_cons_cons, ← hia]
          exact hthis

theorem sortAsc_step_invariant (ps : List (Str × Nat)) :
    ∀ (l : List (Str × Nat)) (z : Str × Nat), l.getLast? = some z →
      (∀ q ∈ l, q.2 ≤ z.2) →
      (ps.foldl (fun acc p => insertAsc p acc) l).getLast? =
          some (runMax z ps) ∧
        (∀ q ∈ ps.foldl (fun acc p => insertAsc p acc) l,
          q.2 ≤ (runMax z ps).2) ∧
        (∀ x, x ∈ ps.foldl (fun acc p => insertAsc p acc) l ↔
          x ∈ l ∨ x ∈ ps) := by
  induction ps with
  | nil =>
    intro l z h1 h2
    exact ⟨h1, h2, fun x => by simp⟩
  | cons p t ih =>
    intro l z h1 h2
    have hrm : runMax z (p :: t) = runMax (lastMaxStep z p) t := rfl
    by_cases hle : z.2 ≤ p.2
    · have hstep : lastMaxStep z p = p := by
        unfold lastMaxStep
        rw [if_pos hle]
      have happ : insertAsc p l = l ++ [p] :=
        insertAsc_of_ge p l (fun q hq => le_trans (h2 q hq) hle)
      have h1' : (insertAsc p l).getLast? = some p := by
        rw [happ, List.getLast?_concat]
      have h2' : ∀ q ∈ insertAsc p l, q.2 ≤ p.2 := by
        intro q hq
        rcases (mem_insertAsc p l q).mp hq with rfl | hql
        · exact le_refl _
        · exact le_trans (h2 q hql) hle
      obtain ⟨g1, g2, g3⟩ := ih (insertAsc p l) p h1' h2'
      rw [hrm, hstep]
      refine ⟨g1, g2, fun x => ?_⟩
      rw [List.foldl_cons, g3 x, mem_insertAsc]
      simp only [List.mem_cons]
      tauto
    · have hstep : lastMaxStep z p = z := by
        unfold lastMaxStep
        rw [if_neg hle]
      push_neg at hle
      have h1' : (insertAsc p l).getLast? = some z :=
        getLast?_insertAsc_of_lt p l z h1 hle
      have h2' : ∀ q ∈ insertAsc p l, q.2 ≤ z.2 := by
        intro q hq
        rcases (mem_insertAsc p l q).mp hq with rfl | hql
        · exact le_of_lt hle
        · exact h2 q hql
      obtain ⟨g1, g2, g3⟩ := ih (insertAsc p l) z h1' h2'
      rw [hrm, hstep]
      refine ⟨g1, g2, fun x => ?_⟩
      rw [List.foldl_cons, g3 x, mem_insertAsc]
      simp only [List.mem_cons]
      tauto

theorem runMax_ge (ps : List (Str × Nat)) :
    ∀ z : Str × Nat, z.2 ≤ (runMax z ps).2 ∧
      ∀ q ∈ ps, q.2 ≤ (runMax z ps).2 := by
  induction ps with
  | nil => exact fun z => ⟨le_refl _, by simp⟩
  | cons p t ih =>
    intro z
    have hrm : runMax z (p :: t) = runMax (lastMaxStep z p) t := rfl
    obtain ⟨ga, gb⟩ := ih (lastMaxStep z p)
    have hz : z.2 ≤ (lastMaxStep z p).2 := by
      unfold lastMaxStep
      split
      · assumption
      · exact le_refl _
    have hp : p.2 ≤ (lastMaxStep z p).2 := by
      unfold lastMaxStep
      split
      · exact le_refl _
      · omega
    rw [hrm]
    refine ⟨le_trans hz ga, fun q hq => ?_⟩
    rcases List.mem_cons.mp hq with rfl | hqt
    · exact le_trans hp ga
    · exact gb q hqt

theorem runMax_split (ps : List (Str × Nat)) :
    ∀ z : Str × Nat, ∃ pre post,
      z :: ps = pre ++ runMax z ps :: post ∧
      ∀ q ∈ post, q.2 < (runMax z ps).2 := by
  induction ps with
  | nil => exact fun z => ⟨[], [], rfl, by simp⟩
  | cons p t ih =>
    intro z
    have hrm : runMax z (p :: t) = runMax (lastMaxStep z p) t := rfl
    by_cases hle : z.2 ≤ p.2
    · have hstep : lastMaxStep z p = p := by
        unfold lastMaxStep
        rw [if_pos hle]
      obtain ⟨pre, post, hsplit, hpost⟩ := ih p
      rw [hrm, hstep]
      exact ⟨z :: pre, post, by rw [List.cons_append, ← hsplit], hpost⟩
    · have hstep : lastMaxStep z p = z := by
        unfold lastMaxStep
        rw [if_neg hle]
      push_neg at hle
      obtain ⟨pre, post, hsplit, hpost⟩ := ih z
      rw [hrm, hstep]
      rcases pre with _ | ⟨z', pre2⟩
      · simp only [List.nil_append, List.cons.injEq] at hsplit
        obtain ⟨hz, ht⟩ := hsplit
        refine ⟨[], p :: t, ?_, fun q hq => ?_⟩
        · rw [List.nil_append, ← hz]
        · rcases List.mem_cons.mp hq with rfl | hqt
          · rw [← hz]
            exact hle
          · exact hpost q (by rw [← ht]; exact hqt)
      · simp only [List.cons_append, List.cons.injEq] at hsplit
        obtain ⟨hz, ht⟩ := hsplit
        refine ⟨z :: p :: pre2, post, ?_, hpost⟩
        rw [List.cons_append, List.cons_append, ← ht]

theorem le_foldl_max (l : List Nat) :
    ∀ (a x : Nat), (x = a ∨ x ∈ l) → x ≤ l.foldl Nat.max a := by
  induction l with
  | nil =>
    rintro a x (rfl | hx)
    · exact le_refl _
    · simp at hx
  | cons b t ih =>
    rintro a x (rfl | hx)
    · exact le_trans (Nat.le_max_left x b) (ih (Nat.max x b) _ (Or.inl rfl))
    · rcases List.mem_cons.mp hx with rfl | hxt
      · exact le_trans (Nat.le_max_right a x) (ih (Nat.max a x) _ (Or.inl rfl))
      · exact ih (Nat.max a b) x (Or.inr hxt)

theorem foldl_max_le (l : List Nat) :
    ∀ (a b : Nat), a ≤ b → (∀ x ∈ l, x ≤ b) → l.foldl Nat.max a ≤ b := by
  induction l with
  | nil => exact fun a b h _ => h
  | cons c t ih =>
    intro a b ha hall
    exact ih (Nat.max a c) b (Nat.max_le.mpr ⟨ha, hall c (by simp)⟩)
      (fun x hx => hall x (by simp [hx]))

theorem seriesMax_eq (l : List (Str × Nat)) (m : Str × Nat) (hm : m ∈ l)
    (hall : ∀ q ∈ l, q.2 ≤ m.2) : seriesMax l = m.2 := by
  refine Nat.le_antisymm ?_ ?_
  · exact foldl_max_le (l.map Prod.snd) 0 m.2 (Nat.zero_le _)
      (fun x hx => by
        rcases List.mem_map.mp hx with ⟨q, hq, rfl⟩
        exact hall q hq)
  · exact le_foldl_max (l.map Prod.snd) 0 m.2
      (Or.inr (List.mem_map.mpr ⟨m, hm, rfl⟩))

theorem map_eq_append_cons {α β : Type} (g : α → β) :
    ∀ (ks : List α) (pre : List β) (m : β) (post : List β),
      ks.map g = pre ++ m :: post →
      ∃ preK k postK, ks = preK ++ k :: postK ∧ g k = m ∧
        preK.map g = pre ∧ postK.map g = post := by
  intro ks
  induction ks with
  | nil =>
    intro pre m post h
    simp only [List.map_nil] at h
    exact absurd h.symm (by simp)
  | cons k kt ih =>
    intro pre m post h
    rcases pre with _ | ⟨b, pre2⟩
    · simp only [List.map_cons, List.nil_append, List.cons.injEq] at h
      exact ⟨[], k, kt, rfl, h.1, rfl, h.2⟩
    · simp only [List.map_cons, List.cons_append, List.cons.injEq] at h
      obtain ⟨hb, hrest⟩ := h
      obtain ⟨preK, k', postK, h1, h2, h3, h4⟩ := ih pre2 m post hrest
      exact ⟨k :: preK, k', postK, by rw [h1, List.cons_append], h2,
        by simp [hb, h3], h4⟩

/-- The full characterization of `value_counts(xs).idxmax()` for non-empty
`xs`: it returns the key with the maximal multiplicity, and among tied keys
the one whose first appearance is LATEST in first-seen key order. -/
theorem idxmax_value_counts (xs : List Str) (hne : xs ≠ []) :
    ∃ d preK postK,
      idxmax (value_counts xs) = some d ∧
      uniq xs = preK ++ d :: postK ∧
      (∀ k ∈ uniq xs, countv k xs ≤ countv d xs) ∧
      (∀ k ∈ postK, countv k xs < countv d xs) := by
  rcases hu : uniq xs with _ | ⟨k0, rest⟩
  · rcases List.exists_mem_of_ne_nil xs hne with ⟨x, hx⟩
    have : x ∈ uniq xs := (mem_uniq xs x).mpr hx
    rw [hu] at this
    simp at this
  set g : Str → Str × Nat := fun k => (k, countv k xs) with hg
  have hpairs : (uniq xs).map g = g k0 :: rest.map g := by
    rw [hu, List.map_cons]
  have hsort : sortAsc ((uniq xs).map g) =
      (rest.map g).foldl (fun acc p => insertAsc p acc) [g k0] := by
    rw [hpairs]
    rfl
  obtain ⟨g1, g2, g3⟩ := sortAsc_step_invariant (rest.map g) [g k0] (g k0)
    (by simp) (by simp)
  set m := runMax (g k0) (rest.map g) with hm
  have hlast : (sortAsc ((uniq xs).map g)).getLast? = some m := by
    rw [hsort]
    exact g1
  have hhead : (value_counts xs).head? = some m := by
    unfold value_counts
    rw [List.head?_reverse]
    exact hlast
  rcases hvc : value_counts xs with _ | ⟨m', tail'⟩
  · rw [hvc] at hhead
    simp at hhead
  rw [hvc] at hhead
  simp only [List.head?_cons, Option.some.injEq] at hhead
  subst hhead
  have hmem_vc : ∀ x, x ∈ value_counts xs ↔ x ∈ (uniq xs).map g := by
    intro x
    unfold value_counts
    rw [List.mem_reverse, hsort, g3 x, hpairs]
    simp
  have hbound : ∀ q ∈ value_counts xs, q.2 ≤ m.2 := by
    intro q hq
    apply g2
    rw [← hsort]
    unfold value_counts at hq
    rw [List.mem_reverse] at hq
    exact hq
  have hmmem : m ∈ value_counts xs := by
    rw [hvc]
    simp
  have hsm : seriesMax (value_counts xs) = m.2 :=
    seriesMax_eq (value_counts xs) m hmmem hbound
  have hidx : idxmax (value_counts xs) = some m.1 := by
    rw [hvc]
    unfold idxmax
    rw [← hvc]
    have : (value_counts xs).find?
        (fun p => decide (p.2 = seriesMax (value_counts xs))) = some m := by
      rw [hvc, List.find?_cons]
      rw [hvc] at hsm
      simp [hsm]
    rw [hvc] at this ⊢
    rw [this]
    rfl
  obtain ⟨pre, post, hsplit, hpost⟩ := runMax_split (rest.map g) (g k0)
  rw [← hm] at hsplit hpost
  have hsplit' : (uniq xs).map g = pre ++ m :: post := by
    rw [hpairs, hsplit]
  obtain ⟨preK, d, postK, hks, hgd, _, hpostm⟩ :=
    map_eq_append_cons g (uniq xs) pre m post hsplit'
  have hd1 : m.1 = d := by rw [← hgd]
  have hd2 : m.2 = countv d xs := by rw [← hgd]
  refine ⟨d, preK, postK, ?_, ?_, ?_, ?_⟩
  · rw [← hvc, hidx, hd1]
  · rw [← hu]
    exact hks
  · intro k hk
    rw [← hu] at hk
    have : g k ∈ (uniq xs).map g := List.mem_map.mpr ⟨k, hk, rfl⟩
    rw [← hmem_vc] at this
    have := hbound _ this
    rw [hd2] at this
    exact this
  · intro k hk
    have : g k ∈ post := by
      rw [← hpostm]
      exact List.mem_map.mpr ⟨k, hk, rfl⟩
    have := hpost _ this
    rw [hd2] at this
    exact this

/-- Claim C2, amended: for a neighborhood with at least one non-sentinel
district row, `comuna_principal` resolves to a district with the maximal
association count; but on ties the LAST-encountered (in input row order)
of the tied districts wins, not the first-encountered: pandas `value_counts`
lists keys by count descending with ties in reverse first-seen order (an
ascending stable argsort is reversed), and `idxmax` takes the first maximal
entry.  Resolution is still deterministic for a fixed input row order.  The
hypothesis of at most 16 distinct district values delimits the regime in
which numpy's quicksort is an insertion sort and hence stable, which is what
the embedding's sort models (Buenos Aires has 15 comunas). -/
theorem c2_district_resolution_amended (rows : List Row) (sel : Str)
    (hne : comunaVals rows sel ≠ [])
    (hsize : (uniq (comunaVals rows sel)).length ≤ 16) :
    ∃ d preK postK,
      comuna_principal rows sel = some d ∧
      comunasBarrio rows sel = preK ++ d :: postK ∧
      (∀ k ∈ comunasBarrio rows sel,
        countv k (comunaVals rows sel) ≤ countv d (comunaVals rows sel)) ∧
      (∀ k ∈ postK,
        countv k (comunaVals rows sel) < countv d (comunaVals rows sel)) := by
  obtain ⟨d, preK, postK, h1, h2, h3, h4⟩ :=
    idxmax_value_counts (comunaVals rows sel) hne
  exact ⟨d, preK, postK, h1, h2, h3, h4⟩

/-- Witness for the amended C2 at the tied two-row input `exRowsTie`. -/
theorem c2_district_resolution_amended_witness :
    ∃ d preK postK,
      comuna_principal exRowsTie [88] = some d ∧
      comunasBarrio exRowsTie [88] = preK ++ d :: postK ∧
      (∀ k ∈ comunasBarrio exRowsTie [88],
        countv k (comunaVals exRowsTie [88]) ≤
          countv d (comunaVals exRowsTie [88])) ∧
      (∀ k ∈ postK,
        countv k (comunaVals exRowsTie [88]) <
          countv d (comunaVals exRowsTie [88])) :=
  c2_district_resolution_amended exRowsTie [88] (by decide) (by decide)

/-- Counterexample to claim C2's tie-break as stated: neighborhood "X" is
tagged once with comuna "7" (first encountered) and once with comuna "14";
the counts tie, yet `value_counts().idxmax()` resolves to "14", the
last-encountered district, not the first-encountered "7". -/
theorem c2_tie_break_counterexample :
    comunaVals exRowsTie [88] = [[55], [49, 52]] ∧
    countv [55] (comunaVals exRowsTie [88]) =
      countv [49, 52] (comunaVals exRowsTie [88]) ∧
    comuna_principal exRowsTie [88] = some [49, 52] ∧
    ([49, 52] : Str) ≠ [55] := by
  exact ⟨by decide, by decide, by decide, by decide⟩

end Delitos
